import Mathlib

/- Shallow embedding of the tarsh98/SWbackend repository: `main.py` (the FastAPI
service) and `app.py` (the Streamlit UI).  Both files share the same pipeline:
extract text from uploaded PDFs, ask an LLM for a JSON record per document,
strip an optional markdown fence, parse the JSON, aggregate the records into a
pandas DataFrame and reshape it into a fixed output schema.

Pandas DataFrames are modelled column-major: `Frame.idx` is the length of the
row index and `Frame.cols` the ordered list of (column name, cell list) pairs.
Column assignment `final_df[c] = x` follows pandas semantics:
  - assigning a scalar broadcasts it over the current index;
  - assigning a non-empty Series while the index is empty re-indexes the whole
    frame to the Series' index, filling the existing columns with NaN
    (pandas `DataFrame._ensure_valid_index`);
  - assigning a Series to a non-empty index aligns it positionally (both
    indexes are default RangeIndexes in this pipeline), truncating or padding
    with NaN.
JSON values are `JVal`; a DataFrame cell is a JSON value or NaN (`Cell.na`). -/

inductive JVal where
  | null : JVal
  | bool (b : Bool) : JVal
  | num (lex : String) : JVal
  | str (s : String) : JVal
  | arr (xs : List JVal) : JVal
  | obj (kvs : List (String × JVal)) : JVal

inductive Cell where
  | v (j : JVal) : Cell
  | na : Cell

structure Frame where
  idx : Nat
  cols : List (String × List Cell)

def Frame.empty : Frame := ⟨0, []⟩

def Frame.colNames (f : Frame) : List String := f.cols.map Prod.fst

def lookupCol (c : String) : List (String × List Cell) → Option (List Cell)
  | [] => none
  | p :: rest => if p.1 = c then some p.2 else lookupCol c rest

def Frame.getCol (f : Frame) (c : String) : Option (List Cell) := lookupCol c f.cols

/-- Replace the value of every column named `c`, or append a new column. -/
def upsert (cols : List (String × List Cell)) (c : String) (v : List Cell) :
    List (String × List Cell) :=
  if c ∈ cols.map Prod.fst then
    cols.map (fun p => if p.1 = c then (c, v) else p)
  else cols ++ [(c, v)]

/-- The value assigned to a DataFrame column: a Series or a broadcast scalar. -/
inductive SetVal where
  | series (xs : List Cell) : SetVal
  | scalar (x : Cell) : SetVal

/-- `f[c] = v` with pandas assignment semantics (see the header comment). -/
def Frame.setCol (f : Frame) (c : String) (v : SetVal) : Frame :=
  match v with
  | .scalar x => ⟨f.idx, upsert f.cols c (List.replicate f.idx x)⟩
  | .series xs =>
    if f.idx = 0 ∧ xs.isEmpty = false then
      ⟨xs.length,
        upsert (f.cols.map (fun p => (p.1, p.2 ++ List.replicate (xs.length - p.2.length) Cell.na))) c xs⟩
    else
      ⟨f.idx, upsert f.cols c (xs.take f.idx ++ List.replicate (f.idx - xs.length) Cell.na)⟩

/-- `df.rename(columns={o: n}, inplace=True)`. -/
def Frame.renameCol (f : Frame) (o n : String) : Frame :=
  ⟨f.idx, f.cols.map (fun p => (if p.1 = o then n else p.1, p.2))⟩

/-- `if o in df.columns: df.rename(columns={o: n}, inplace=True)` (main.py lines 94-107). -/
def Frame.renameIf (f : Frame) (o n : String) : Frame :=
  if o ∈ f.colNames then f.renameCol o n else f

/-- The seven rename pairs of `transform_data` (main.py lines 94-107, identical
in app.py lines 117-136), in source order. -/
def renamePairs : List (String × String) :=
  [("Buyer\x27s Order No.", "PoNumber"),
   ("InvoiceNo", "Vendor Challan No"),
   ("Ack Date", "Challan Date"),
   ("Basic amount without tax", "Basic value"),
   ("IGST", "IGST VALUE"),
   ("Total Amount", "INVOICE VALUE"),
   ("Rate", "Gross Rate")]

/-- Step 1 of the Schema Transformer: the seven in-place renames, in order. -/
def applyRenames (f : Frame) : Frame :=
  renamePairs.foldl (fun g p => g.renameIf p.1 p.2) f

/-- The right-hand side of one projection assignment: `df.get(k)` or a constant. -/
inductive Src where
  | col (k : String) : Src
  | const (s : String) : Src
deriving DecidableEq

/-- The 34 projection assignments `final_df[c] = ...` of `transform_data`
(main.py lines 110-143; app.py lines 139-172 is the same sequence with strict
`df[k]` reads), one entry per source line, in source order. -/
def plan : List (String × Src) :=
  [("PO NUMBER", .col "PoNumber"),
   ("PO Item No", .const ""),
   ("Quantity", .col "Quantity"),
   ("VENDOR CHALLAN NO", .col "Vendor Challan No"),
   ("Challan Date", .col "Challan Date"),
   ("Gross Rate", .col "Gross Rate"),
   ("Net P O Rate", .col "Gross Rate"),
   ("Basic Value", .col "Basic value"),
   ("Taxable Value", .col "Basic value"),
   ("SGST VALUE", .const ""),
   ("CGST VALUE", .const ""),
   ("IGST VALUE", .col "IGST VALUE"),
   ("SGST RATE", .const ""),
   ("CGST RATE", .const ""),
   ("IGST RATE", .const ""),
   ("Packing Amount", .const ""),
   ("Freight Amount", .const ""),
   ("Others Amount", .const ""),
   ("INVOICE VALUE", .col "INVOICE VALUE"),
   ("Currency", .const "INR"),
   ("E Way Bill", .const ""),
   ("57F4 NUMBER", .const ""),
   ("57F4 NO DATE", .const ""),
   ("GSTIN Number", .col "GSTIN Number"),
   ("Vehicle Number", .const ""),
   ("PART REV Level", .const ""),
   ("COP Certificate", .const ""),
   ("Certificate Date", .const ""),
   ("TML GSTIN", .col "TML GSTIN"),
   ("Digital Invoice File Name", .const ""),
   ("IRN", .col "IRN"),
   ("TCS Value", .const ""),
   ("Field4", .const ""),
   ("Field5", .const "")]

/-- `df.get(k)` yields a Series when the column exists, else the scalar `None`
(assigned as NaN); a constant is a broadcast scalar string. -/
def evalSrc (d : Frame) : Src → SetVal
  | .col k =>
    match d.getCol k with
    | some xs => .series xs
    | none => .scalar .na
  | .const s => .scalar (.v (.str s))

/-- One projection assignment `final_df[e.1] = <e.2 read from d>`. -/
def stepFn (d f : Frame) (e : String × Src) : Frame := f.setCol e.1 (evalSrc d e.2)

/-- Step 2 of the Schema Transformer: build `final_df` by running the 34
assignments on an empty frame, reading from the renamed input `d`. -/
def projectPlan (d : Frame) : Frame :=
  plan.foldl (stepFn d) Frame.empty

/-- `transform_data` (main.py lines 92-145): the returned `final_df`. -/
def transform_data (df : Frame) : Frame := projectPlan (applyRenames df)

/-- `transform_data` renames its argument in place (`inplace=True`); the full
effect of a call is the pair (caller's mutated table, returned table). -/
def transform_data_full (df : Frame) : Frame × Frame :=
  (applyRenames df, projectPlan (applyRenames df))

/-- The fixed output schema of spec §6, in order. -/
def outputSchema : List String :=
  ["PO NUMBER", "PO Item No", "Quantity", "VENDOR CHALLAN NO", "Challan Date",
   "Gross Rate", "Net P O Rate", "Basic Value", "Taxable Value", "SGST VALUE",
   "CGST VALUE", "IGST VALUE", "SGST RATE", "CGST RATE", "IGST RATE",
   "Packing Amount", "Freight Amount", "Others Amount", "INVOICE VALUE",
   "Currency", "E Way Bill", "57F4 NUMBER", "57F4 NO DATE", "GSTIN Number",
   "Vehicle Number", "PART REV Level", "COP Certificate", "Certificate Date",
   "TML GSTIN", "Digital Invoice File Name", "IRN", "TCS Value", "Field4",
   "Field5"]

/-- The projection columns that copy a source column, as (output, source) pairs. -/
def sourcedPairs : List (String × String) :=
  plan.filterMap (fun e => match e.2 with | .col k => some (e.1, k) | .const _ => none)

set_option maxRecDepth 8192

/- ------------------------------------------------------------------ -/
/- Response Parser: fence stripping (`'```json' in s` /
   `s.split('```json\n')[1].split('```')[0]`, main.py lines 161-164,
   app.py lines 103-104) and `json.loads`. -/

/-- The prefix of `s` before the first occurrence of `pat`, or all of `s`.
`s.split(pat)[0]` for a non-empty `pat`. -/
def takeUntil (pat : List Char) : List Char → List Char
  | [] => []
  | c :: cs => if pat.isPrefixOf (c :: cs) then [] else c :: takeUntil pat cs

/-- The suffix of `s` after the first occurrence of `pat`; `none` when `pat`
does not occur.  `s.split(pat)[1]` is `takeUntil pat` of this suffix. -/
def afterFirst (pat : List Char) : List Char → Option (List Char)
  | [] => if pat.isEmpty then some [] else none
  | c :: cs =>
    if pat.isPrefixOf (c :: cs) then some ((c :: cs).drop pat.length)
    else afterFirst pat cs

/-- Python's `pat in s` for a non-empty `pat`. -/
def containsSub (pat s : List Char) : Bool := (afterFirst pat s).isSome

/-- The fence-stripping step: when the raw response contains a JSON fence
marker, reassign it to `split('```json\n')[1].split('```')[0]`; `none` models
the `IndexError` raised when `'```json'` occurs but `'```json\n'` does not. -/
def stripPayload (raw : String) : Option String :=
  if containsSub "```json".data raw.data then
    match afterFirst "```json\n".data raw.data with
    | some rest => some ⟨takeUntil "```".data (takeUntil "```json\n".data rest)⟩
    | none => none
  else some raw

def isWsChar (c : Char) : Bool := c = ' ' || c = '\n' || c = '\t' || c = '\r'

def skipWs : List Char → List Char
  | [] => []
  | c :: cs => if isWsChar c then skipWs cs else c :: cs

def hexVal (c : Char) : Option Nat :=
  if '0' ≤ c ∧ c ≤ '9' then some (c.toNat - 48)
  else if 'a' ≤ c ∧ c ≤ 'f' then some (c.toNat - 87)
  else if 'A' ≤ c ∧ c ≤ 'F' then some (c.toNat - 55)
  else none

def escChar (c : Char) : Option Char :=
  if c = '"' then some '"'
  else if c = '\\' then some '\\'
  else if c = '/' then some '/'
  else if c = 'n' then some '\n'
  else if c = 't' then some '\t'
  else if c = 'r' then some '\r'
  else if c = 'b' then some (Char.ofNat 8)
  else if c = 'f' then some (Char.ofNat 12)
  else none

/-- JSON string body after the opening quote: content chars and the rest. -/
def parseStringBody : List Char → Option (List Char × List Char)
  | [] => none
  | '"' :: rest => some ([], rest)
  | '\\' :: 'u' :: a :: b :: c :: d :: rest =>
    match hexVal a, hexVal b, hexVal c, hexVal d with
    | some x1, some x2, some x3, some x4 =>
      (parseStringBody rest).map
        (fun r => (Char.ofNat (((x1 * 16 + x2) * 16 + x3) * 16 + x4) :: r.1, r.2))
    | _, _, _, _ => none
  | '\\' :: e :: rest =>
    match escChar e with
    | some c2 => (parseStringBody rest).map (fun r => (c2 :: r.1, r.2))
    | none => none
  | c :: rest => (parseStringBody rest).map (fun r => (c :: r.1, r.2))

def takeDigits : List Char → List Char × List Char
  | [] => ([], [])
  | c :: cs => if c.isDigit then let r := takeDigits cs; (c :: r.1, r.2) else ([], c :: cs)

/-- Optional fraction part `.digits` of a JSON number; returns its lexeme. -/
def parseFracPart : List Char → Option (List Char × List Char)
  | '.' :: cs =>
    match takeDigits cs with
    | ([], _) => none
    | (ds, rest) => some ('.' :: ds, rest)
  | cs => some ([], cs)

/-- Optional exponent part `e[+-]digits` of a JSON number; returns its lexeme. -/
def parseExpPart : List Char → Option (List Char × List Char)
  | [] => some ([], [])
  | c :: cs =>
    if c = 'e' ∨ c = 'E' then
      match cs with
      | [] => none
      | s :: cs2 =>
        if s = '+' ∨ s = '-' then
          match takeDigits cs2 with
          | ([], _) => none
          | (ds, rest) => some (c :: s :: ds, rest)
        else
          match takeDigits (s :: cs2) with
          | ([], _) => none
          | (ds, rest) => some (c :: ds, rest)
    else some ([], c :: cs)

/-- A JSON number; the lexeme is kept verbatim (its numeric value never
matters to this pipeline). -/
def parseNumber (cs : List Char) : Option (String × List Char) :=
  let sr : List Char × List Char := match cs with | '-' :: r => (['-'], r) | _ => ([], cs)
  match takeDigits sr.2 with
  | ([], _) => none
  | (ds, cs2) =>
    if ds.length > 1 ∧ ds.head? = some '0' then none
    else
      match parseFracPart cs2 with
      | none => none
      | some (fr, cs3) =>
        match parseExpPart cs3 with
        | none => none
        | some (ex, cs4) => some (⟨sr.1 ++ ds ++ fr ++ ex⟩, cs4)

inductive PMode where
  | value : PMode
  | members : PMode
  | elems : PMode

inductive POut where
  | v (j : JVal) : POut
  | kvs (l : List (String × JVal)) : POut
  | vs (l : List JVal) : POut

/-- Recursive JSON parser (modelling `json.loads`), fuel-indexed so that the
recursion is structural.  `members` parses `"k": v, ... }` after `{`, `elems`
parses `v, ... ]` after `[`. -/
def parseCore : Nat → PMode → List Char → Option (POut × List Char)
  | 0, _, _ => none
  | fuel + 1, .value, cs =>
    match skipWs cs with
    | [] => none
    | '{' :: rest =>
      match skipWs rest with
      | '}' :: rest2 => some (.v (.obj []), rest2)
      | rest2 =>
        match parseCore fuel .members rest2 with
        | some (.kvs l, rest3) => some (.v (.obj l), rest3)
        | _ => none
    | '[' :: rest =>
      match skipWs rest with
      | ']' :: rest2 => some (.v (.arr []), rest2)
      | rest2 =>
        match parseCore fuel .elems rest2 with
        | some (.vs l, rest3) => some (.v (.arr l), rest3)
        | _ => none
    | '"' :: rest =>
      match parseStringBody rest with
      | some (s, rest2) => some (.v (.str ⟨s⟩), rest2)
      | none => none
    | 't' :: 'r' :: 'u' :: 'e' :: rest => some (.v (.bool true), rest)
    | 'f' :: 'a' :: 'l' :: 's' :: 'e' :: rest => some (.v (.bool false), rest)
    | 'n' :: 'u' :: 'l' :: 'l' :: rest => some (.v .null, rest)
    | cs2 =>
      match parseNumber cs2 with
      | some (lex, rest) => some (.v (.num lex), rest)
      | none => none
  | fuel + 1, .members, cs =>
    match skipWs cs with
    | '"' :: rest =>
      match parseStringBody rest with
      | none => none
      | some (k, rest2) =>
        match skipWs rest2 with
        | ':' :: rest3 =>
          match parseCore fuel .value rest3 with
          | some (.v v, rest4) =>
            match skipWs rest4 with
            | ',' :: rest5 =>
              match parseCore fuel .members rest5 with
              | some (.kvs l, rest6) => some (.kvs ((⟨k⟩, v) :: l), rest6)
              | _ => none
            | '}' :: rest5 => some (.kvs [(⟨k⟩, v)], rest5)
            | _ => none
          | _ => none
        | _ => none
    | _ => none
  | fuel + 1, .elems, cs =>
    match parseCore fuel .value cs with
    | some (.v v, rest) =>
      match skipWs rest with
      | ',' :: rest2 =>
        match parseCore fuel .elems rest2 with
        | some (.vs l, rest3) => some (.vs (v :: l), rest3)
        | _ => none
      | ']' :: rest2 => some (.vs [v], rest2)
      | _ => none
    | _ => none

/-- `json.loads`: parse one JSON value, allow surrounding whitespace, require
end of input. -/
def json_loads (s : String) : Option JVal :=
  match parseCore (2 * s.data.length + 2) .value s.data with
  | some (.v v, rest) => if (skipWs rest).isEmpty then some v else none
  | _ => none

/-- The whole `try` block of the per-document parse: strip the optional fence,
then `json.loads`; `none` is the caught `JSONDecodeError`/`IndexError`. -/
def parse_response (raw : String) : Option JVal :=
  match stripPayload raw with
  | some p => json_loads p
  | none => none

/-- The value of the (reassigned) `extracted_data_str` variable at the time the
`except` handler prints / displays it: the stripped payload when the fence
split succeeded, the untouched raw text otherwise. -/
def printedText (raw : String) : String :=
  match stripPayload raw with
  | some p => p
  | none => raw

/- ------------------------------------------------------------------ -/
/- Documents and the two orchestrators. -/

/-- One uploaded file, carrying the outcomes of its two external calls:
`pages` is the pdfplumber result (`error` = unreadable PDF, otherwise the
per-page `extract_text()` results, `none` = page with no extractable text),
`llm` is the completion-service result for this document's text. -/
structure Doc where
  filename : String
  content_type : String
  pages : Except String (List (Option String))
  llm : Except String String

/-- A raised `HTTPException(status_code, detail)`. -/
structure HErr where
  status : Nat
  detail : String
deriving DecidableEq

/-- Observable calls and per-document failure reports of a batch run. -/
inductive Event where
  | extractCalled (filename : String) : Event
  | llmCalled (filename : String) : Event
  | parseFailed (filename : String) (shown : String) : Event
deriving DecidableEq

namespace MainPy

/-- `extract_text_from_pdf` (main.py lines 34-43): concatenate
`page.extract_text() or ""` over the pages; any pdfplumber failure is caught
and re-raised as HTTP 500. -/
def extract_text_from_pdf (d : Doc) : Except HErr String :=
  match d.pages with
  | .error e => .error ⟨500, "Error processing PDF: " ++ e⟩
  | .ok ps => .ok (ps.foldl (fun acc p => acc ++ p.getD "") "")

/-- `get_info_from_llm` (main.py lines 45-90): the completion call; any
failure is caught and re-raised as HTTP 500. -/
def get_info_from_llm (d : Doc) : Except HErr String :=
  match d.llm with
  | .error e => .error ⟨500, "Error calling OpenAI API: " ++ e⟩
  | .ok r => .ok r

/-- The `for file in files:` loop of `/api/extract` (main.py lines 152-171):
`all_data` is the accumulated record list, the event list records external
calls and parse failures.  An `HTTPException` raised inside the loop
propagates, aborting the whole request. -/
def runBatch : List Doc → List JVal → List Event → Except HErr (List JVal) × List Event
  | [], all_data, evs => (.ok all_data, evs)
  | f :: rest, all_data, evs =>
    if f.content_type ≠ "application/pdf" then
      (.error ⟨400, "File \x27" ++ f.filename ++ "\x27 is not a PDF."⟩, evs)
    else
      match extract_text_from_pdf f with
      | .error e => (.error e, evs ++ [.extractCalled f.filename])
      | .ok _ =>
        match get_info_from_llm f with
        | .error e => (.error e, evs ++ [.extractCalled f.filename, .llmCalled f.filename])
        | .ok raw =>
          match parse_response raw with
          | some rec =>
            runBatch rest (all_data ++ [rec])
              (evs ++ [.extractCalled f.filename, .llmCalled f.filename])
          | none =>
            runBatch rest all_data
              (evs ++ [.extractCalled f.filename, .llmCalled f.filename,
                       .parseFailed f.filename (printedText raw)])

/-- `extract_data_from_pdfs` (main.py lines 147-179) up to the final
DataFrame construction: the batch-limit check, the loop, and the
empty-result check. -/
def extract_data_from_pdfs (files : List Doc) : Except HErr (List JVal) × List Event :=
  if files.length > 10 then
    (.error ⟨400, "You can only upload a maximum of 10 files at a time."⟩, [])
  else
    match runBatch files [] [] with
    | (.error e, evs) => (.error e, evs)
    | (.ok all_data, evs) =>
      if all_data.isEmpty then
        (.error ⟨400, "No data could be extracted from the provided files."⟩, evs)
      else (.ok all_data, evs)

end MainPy

/-- The keys of a parsed record (a JSON object row), in order. -/
def recKeys : JVal → List String
  | .obj kvs => kvs.map Prod.fst
  | _ => []

def jlookup (c : String) : List (String × JVal) → Option JVal
  | [] => none
  | (k, v) :: rest => if k = c then some v else jlookup c rest

def recLookup (j : JVal) (c : String) : Option JVal :=
  match j with
  | .obj kvs => jlookup c kvs
  | _ => none

/-- `pd.DataFrame(all_data)` for a list of record rows: the columns are the
union of the rows' keys in order of first appearance; a row lacking a key
holds NaN in that column. -/
def pd_DataFrame (rows : List JVal) : Frame :=
  let cols := rows.foldl (fun acc r => acc ++ ((recKeys r).filter (fun c => decide (c ∉ acc)))) []
  ⟨rows.length,
   cols.map (fun c =>
     (c, rows.map (fun r => match recLookup r c with | some v => Cell.v v | none => Cell.na)))⟩

/-- The full service response of `/api/extract`: the transformed table on
success (serialized with `to_dict(orient="records")`, elided), the raised
`HTTPException` otherwise. -/
def extract_endpoint (files : List Doc) : Except HErr Frame × List Event :=
  match MainPy.extract_data_from_pdfs files with
  | (.ok recs, evs) => (.ok (transform_data (pd_DataFrame recs)), evs)
  | (.error e, evs) => (.error e, evs)

namespace AppPy

/-- `extract_text_from_pdf` (app.py lines 15-21): `text += page.extract_text()`
with no `or ""`, so a page with no extractable text (None) raises a
`TypeError`; there is no try/except anywhere around it. -/
def extract_text_from_pdf (d : Doc) : Except String String :=
  match d.pages with
  | .error e => .error e
  | .ok ps =>
    ps.foldlM
      (fun acc p =>
        match p with
        | some t => Except.ok (acc ++ t)
        | none => Except.error "TypeError: can only concatenate str (not \"NoneType\") to str")
      ""

/-- `df[k]`: pandas raises `KeyError` on a missing column. -/
def getColE (f : Frame) (c : String) : Except String (List Cell) :=
  match lookupCol c f.cols with
  | some v => .ok v
  | none => .error ("KeyError: " ++ c)

def evalSrcE (d : Frame) : Src → Except String SetVal
  | .col k => (getColE d k).map .series
  | .const s => .ok (.scalar (.v (.str s)))

/-- The inline reshape of app.py lines 117-172: the same renames and the same
34 assignments as `transform_data`, but reading source columns with strict
`df[k]`, so a missing source key raises `KeyError`. -/
def app_transform (df0 : Frame) : Except String Frame :=
  let d := applyRenames df0
  plan.foldlM (fun f e => (evalSrcE d e.2).map (fun v => f.setCol e.1 v)) Frame.empty

/-- What the Streamlit page ends up showing for one run. -/
inductive AppResult where
  | overLimit : AppResult
  | crashed (msg : String) : AppResult
  | done (panels : List (String × String)) (table : Option Frame) (download : Bool) : AppResult

def app_go : List Doc → List JVal → List (String × String) → AppResult
  | [], all_data, panels =>
    if all_data.isEmpty then .done panels none false
    else
      match app_transform (pd_DataFrame all_data) with
      | .ok f => .done panels (some f) true
      | .error e => .crashed e
  | d :: rest, all_data, panels =>
    match extract_text_from_pdf d with
    | .error e => .crashed e
    | .ok _ =>
      match d.llm with
      | .error e => .crashed e
      | .ok raw =>
        match parse_response raw with
        | some r => app_go rest (all_data ++ [r]) panels
        | none => app_go rest all_data (panels ++ [(d.filename, printedText raw)])

/-- `main()` (app.py lines 69-184): the batch-limit error, or the loop with
per-document parse-error panels followed by the table and download button
(shown only when at least one record was parsed). -/
def main (files : List Doc) : AppResult :=
  if files.length > 10 then .overLimit else app_go files [] []

end AppPy

/- ------------------------------------------------------------------ -/
/- Derived notions used by the verification, and concrete test inputs. -/

/-- Well-formedness of a frame: every column has exactly `idx` cells. -/
def FrameWF (f : Frame) : Prop := ∀ p ∈ f.cols, p.2.length = f.idx

/-- Column `c` of `f` exists and holds the missing value in every row. -/
def allNa (f : Frame) (c : String) : Prop :=
  f.getCol c = some (List.replicate f.idx Cell.na)

/-- The backtick character (written by code so that it can be reasoned about). -/
def tick : Char := Char.ofNat 96

/-- `s` contains no backtick, hence no fence marker fragment. -/
def noTick (s : String) : Prop := tick ∉ s.data

/-- The LLM response text of a document (meaningful when `llm` succeeded). -/
def rawOf (d : Doc) : String :=
  match d.llm with
  | .ok r => r
  | .error _ => ""

/-- A document whose content type is PDF and whose two external calls succeed. -/
def okDoc (d : Doc) : Prop :=
  d.content_type = "application/pdf" ∧ (∃ ps, d.pages = .ok ps) ∧ (∃ r, d.llm = .ok r)

/-- A document whose PDF opens and whose every page has extractable text (the
condition under which app.py's extractor does not raise). -/
def okDocApp (d : Doc) : Prop :=
  ∃ ps, d.pages = .ok ps ∧ ∀ p ∈ ps, p ≠ none

/-- The record a document contributes (under `okDoc`). -/
def docRec (d : Doc) : Option JVal := parse_response (rawOf d)

/-- The events one document contributes to a service-mode run (under `okDoc`). -/
def docTrace (d : Doc) : List Event :=
  [.extractCalled d.filename, .llmCalled d.filename] ++
    (match parse_response (rawOf d) with
     | some _ => []
     | none => [.parseFailed d.filename (printedText (rawOf d))])

/-- The parse-error panel one document contributes in interactive mode. -/
def docPanel (d : Doc) : String × String := (d.filename, printedText (rawOf d))

/-- The panel a document contributes, `none` when its response parses. -/
def docPanelOpt (d : Doc) : Option (String × String) :=
  match parse_response (rawOf d) with
  | some _ => none
  | none => some (docPanel d)

/-- A one-row table whose only column is the source key `Quantity`. -/
def dfQuantity : Frame := ⟨1, [("Quantity", [Cell.v (.str "5")])]⟩

/-- A one-row table whose only column is the source key `PoNumber`. -/
def dfPoNumber : Frame := ⟨1, [("PoNumber", [Cell.v (.str "A")])]⟩

/-- A one-row table whose only column is the raw key `Buyer's Order No.`. -/
def dfBuyer : Frame := ⟨1, [("Buyer\x27s Order No.", [Cell.v (.str "A")])]⟩

/-- A one-row table whose only column is the raw key `InvoiceNo`. -/
def dfInvoice : Frame := ⟨1, [("InvoiceNo", [Cell.v (.str "SW/25-26/2513")])]⟩

/-- A document whose whole pipeline succeeds. -/
def docGood : Doc :=
  ⟨"good.pdf", "application/pdf", .ok [some "text"], .ok "\x7b\"Quantity\": \"5\"\x7d"⟩

/-- A document whose LLM response is a fenced block with unparseable content. -/
def docFencedBad : Doc :=
  ⟨"fenced.pdf", "application/pdf", .ok [some "text"], .ok "```json\nbad\n```"⟩

/-- A document whose LLM response is plain non-JSON text. -/
def docPlainBad : Doc :=
  ⟨"plain.pdf", "application/pdf", .ok [some "text"], .ok "not json"⟩

/-- A document whose PDF cannot be opened. -/
def docBadPdf : Doc :=
  ⟨"broken.pdf", "application/pdf", .error "boom", .ok "\x7b\x7d"⟩

/-- A document whose completion call fails. -/
def docLlmFail : Doc :=
  ⟨"limited.pdf", "application/pdf", .ok [some "text"], .error "rate limited"⟩

/-- A readable PDF with a blank middle page. -/
def docBlankPage : Doc :=
  ⟨"blank.pdf", "application/pdf", .ok [some "a", none, some "b"], .ok "\x7b\x7d"⟩

/- ================================================================== -/
/- Lemmas about the frame model. -/

theorem lookupCol_eq_none_iff (c : String) (cols : List (String × List Cell)) :
    lookupCol c cols = none ↔ c ∉ cols.map Prod.fst := by
  induction cols with
  | nil => simp [lookupCol]
  | cons p rest ih =>
    by_cases h : p.1 = c
    · simp [lookupCol, h]
    · simp [lookupCol, h, ih, Ne.symm h]

theorem lookupCol_mem {c : String} {cols : List (String × List Cell)} {v : List Cell}
    (h : lookupCol c cols = some v) : (c, v) ∈ cols := by
  induction cols with
  | nil => simp [lookupCol] at h
  | cons p rest ih =>
    by_cases hp : p.1 = c
    · simp only [lookupCol, if_pos hp, Option.some.injEq] at h
      subst h
      rw [← hp]
      exact List.mem_cons_self _ _
    · simp only [lookupCol, if_neg hp] at h
      exact List.mem_cons_of_mem _ (ih h)

theorem lookupCol_isSome_of_mem {c : String} {cols : List (String × List Cell)}
    (h : c ∈ cols.map Prod.fst) : ∃ v, lookupCol c cols = some v := by
  cases hl : lookupCol c cols with
  | none => exact absurd ((lookupCol_eq_none_iff c cols).1 hl) (by simp [h])
  | some v => exact ⟨v, rfl⟩

theorem keys_map_replace (cols : List (String × List Cell)) (c : String) (v : List Cell) :
    (cols.map (fun p => if p.1 = c then (c, v) else p)).map Prod.fst = cols.map Prod.fst := by
  rw [List.map_map]
  refine List.map_congr_left ?_
  intro p _
  by_cases h : p.1 = c
  · simp [h]
  · simp [h]

theorem keys_upsert (cols : List (String × List Cell)) (c : String) (v : List Cell) :
    (upsert cols c v).map Prod.fst =
      if c ∈ cols.map Prod.fst then cols.map Prod.fst else cols.map Prod.fst ++ [c] := by
  unfold upsert
  split
  · exact keys_map_replace cols c v
  · simp

theorem lookup_map_replace_self (cols : List (String × List Cell)) (c : String) (v : List Cell)
    (hmem : c ∈ cols.map Prod.fst) :
    lookupCol c (cols.map (fun p => if p.1 = c then (c, v) else p)) = some v := by
  induction cols with
  | nil => simp at hmem
  | cons p rest ih =>
    by_cases hp : p.1 = c
    · simp [lookupCol, hp]
    · have h' : c ∈ rest.map Prod.fst := by
        rcases (by simpa using hmem : c = p.1 ∨ c ∈ rest.map Prod.fst) with h | h
        · exact absurd h.symm hp
        · exact h
      simp [lookupCol, hp, ih h']

theorem lookup_append_self (cols : List (String × List Cell)) (c : String) (v : List Cell)
    (hmem : c ∉ cols.map Prod.fst) :
    lookupCol c (cols ++ [(c, v)]) = some v := by
  induction cols with
  | nil => simp [lookupCol]
  | cons p rest ih =>
    have hp : p.1 ≠ c := fun hq => hmem (by simp [hq])
    simp only [List.cons_append, lookupCol, if_neg hp]
    exact ih (fun hq => hmem (by rw [List.map_cons]; exact List.mem_cons_of_mem _ hq))

theorem lookup_upsert_self (cols : List (String × List Cell)) (c : String) (v : List Cell) :
    lookupCol c (upsert cols c v) = some v := by
  unfold upsert
  split
  · exact lookup_map_replace_self cols c v (by assumption)
  · exact lookup_append_self cols c v (by assumption)

theorem lookup_map_replace_other (cols : List (String × List Cell)) {c' c : String}
    (v : List Cell) (h : c' ≠ c) :
    lookupCol c' (cols.map (fun p => if p.1 = c then (c, v) else p)) = lookupCol c' cols := by
  induction cols with
  | nil => rfl
  | cons p rest ih =>
    by_cases hp : p.1 = c
    · simp [lookupCol, hp, Ne.symm h, ih]
    · by_cases hq : p.1 = c'
      · simp [lookupCol, hp, hq, h]
      · simp [lookupCol, hp, hq, ih]

theorem lookup_append_other (cols : List (String × List Cell)) {c' c : String}
    (v : List Cell) (h : c' ≠ c) :
    lookupCol c' (cols ++ [(c, v)]) = lookupCol c' cols := by
  induction cols with
  | nil => simp [lookupCol, Ne.symm h]
  | cons p rest ih =>
    by_cases hq : p.1 = c'
    · simp [lookupCol, hq]
    · simp [lookupCol, hq, ih]

theorem lookup_upsert_other (cols : List (String × List Cell)) {c' c : String} (v : List Cell)
    (h : c' ≠ c) : lookupCol c' (upsert cols c v) = lookupCol c' cols := by
  unfold upsert
  split
  · exact lookup_map_replace_other cols v h
  · exact lookup_append_other cols v h

theorem lookup_map_values (cols : List (String × List Cell)) (c : String)
    (g : String → List Cell → List Cell) :
    lookupCol c (cols.map (fun p => (p.1, g p.1 p.2))) = (lookupCol c cols).map (g c) := by
  induction cols with
  | nil => rfl
  | cons p rest ih =>
    by_cases hp : p.1 = c
    · simp only [List.map_cons, lookupCol, if_pos hp]
      rw [hp]
      rfl
    · simp only [List.map_cons, lookupCol, if_neg hp]
      exact ih

theorem setCol_colNames (f : Frame) (c : String) (v : SetVal) :
    (f.setCol c v).colNames =
      if c ∈ f.colNames then f.colNames else f.colNames ++ [c] := by
  cases v with
  | scalar x => exact keys_upsert f.cols c _
  | series xs =>
    rw [Frame.setCol]
    split
    · show (upsert (f.cols.map _) c xs).map Prod.fst = _
      rw [keys_upsert]
      have hkeys : (f.cols.map (fun p => (p.1, p.2 ++ List.replicate (xs.length - p.2.length) Cell.na))).map Prod.fst = f.cols.map Prod.fst := by
        rw [List.map_map]
        exact List.map_congr_left (fun p _ => rfl)
      rw [hkeys]
      rfl
    · exact keys_upsert f.cols c _

theorem setCol_idx_scalar (f : Frame) (c : String) (x : Cell) :
    (f.setCol c (.scalar x)).idx = f.idx := rfl

theorem setCol_idx_series (f : Frame) (c : String) (xs : List Cell) :
    (f.setCol c (.series xs)).idx =
      if f.idx = 0 ∧ xs.isEmpty = false then xs.length else f.idx := by
  rw [Frame.setCol]
  split
  · rfl
  · rfl

theorem foldl_stepFn_colNames (d : Frame) (l : List (String × Src)) (f : Frame) :
    (l.foldl (stepFn d) f).colNames =
      l.foldl (fun ns e => if e.1 ∈ ns then ns else ns ++ [e.1]) f.colNames := by
  induction l generalizing f with
  | nil => rfl
  | cons e rest ih =>
    simp only [List.foldl_cons]
    rw [ih, stepFn, setCol_colNames]

theorem projectPlan_colNames (d : Frame) : (projectPlan d).colNames = outputSchema := by
  rw [projectPlan, foldl_stepFn_colNames]
  rfl

theorem transform_colNames (df : Frame) : (transform_data df).colNames = outputSchema :=
  projectPlan_colNames _

theorem mem_upsert {cols : List (String × List Cell)} {c : String} {v : List Cell}
    {p : String × List Cell} (h : p ∈ upsert cols c v) : p.2 = v ∨ p ∈ cols := by
  unfold upsert at h
  split at h
  · rcases List.mem_map.1 h with ⟨q, hq, hqe⟩
    by_cases hc : q.1 = c
    · rw [if_pos hc] at hqe
      left
      rw [← hqe]
    · rw [if_neg hc] at hqe
      right
      rw [← hqe]
      exact hq
  · rcases List.mem_append.1 h with h1 | h1
    · right
      exact h1
    · left
      rw [List.mem_singleton.1 h1]

theorem setCol_WF {f : Frame} (hWF : FrameWF f) (c : String) (v : SetVal) :
    FrameWF (f.setCol c v) := by
  cases v with
  | scalar x =>
    intro p hp
    simp only [Frame.setCol] at hp ⊢
    rcases mem_upsert hp with h1 | h1
    · rw [h1, List.length_replicate]
    · exact hWF p h1
  | series xs =>
    simp only [Frame.setCol]
    split
    · rename_i hcond
      intro p hp
      rcases mem_upsert hp with h1 | h1
      · rw [h1]
      · rcases List.mem_map.1 h1 with ⟨q, hq, hqe⟩
        have hlq : q.2.length = f.idx := hWF q hq
        rw [← hqe]
        simp only [List.length_append, List.length_replicate]
        omega
    · intro p hp
      rcases mem_upsert hp with h1 | h1
      · rw [h1]
        simp only [List.length_append, List.length_take, List.length_replicate]
        omega
      · exact hWF p h1

theorem foldl_stepFn_WF (d : Frame) (l : List (String × Src)) {f : Frame} (h : FrameWF f) :
    FrameWF (l.foldl (stepFn d) f) := by
  induction l generalizing f with
  | nil => exact h
  | cons e rest ih => exact ih (setCol_WF h e.1 _)

theorem projectPlan_WF (d : Frame) : FrameWF (projectPlan d) :=
  foldl_stepFn_WF d plan (fun p hp => absurd hp (List.not_mem_nil p))

theorem setCol_preserves_allNa {f : Frame} {c : String} (h : allNa f c) (c' : String)
    (v : SetVal) (hv : c' ≠ c ∨ v = SetVal.scalar Cell.na) : allNa (f.setCol c' v) c := by
  by_cases hc : c' = c
  · have hveq : v = SetVal.scalar Cell.na := by
      rcases hv with h1 | h1
      · exact absurd hc h1
      · exact h1
    subst hveq
    subst hc
    unfold allNa Frame.getCol
    simp only [Frame.setCol]
    exact lookup_upsert_self _ _ _
  · cases v with
    | scalar x =>
      unfold allNa Frame.getCol at h ⊢
      simp only [Frame.setCol]
      rw [lookup_upsert_other _ _ (Ne.symm hc)]
      exact h
    | series xs =>
      unfold allNa Frame.getCol at h ⊢
      simp only [Frame.setCol]
      split
      · rename_i hcond
        rw [lookup_upsert_other _ _ (Ne.symm hc)]
        rw [lookup_map_values f.cols c (fun _ w => w ++ List.replicate (xs.length - w.length) Cell.na)]
        rw [h]
        simp [hcond.1]
      · rw [lookup_upsert_other _ _ (Ne.symm hc)]
        exact h

theorem foldl_preserves_allNa (d : Frame) (l : List (String × Src)) {f : Frame} {c : String}
    (hl : ∀ e ∈ l, e.1 ≠ c ∨ evalSrc d e.2 = SetVal.scalar Cell.na)
    (h : allNa f c) : allNa (l.foldl (stepFn d) f) c := by
  induction l generalizing f with
  | nil => exact h
  | cons e rest ih =>
    simp only [List.foldl_cons]
    exact ih (fun e' he' => hl e' (List.mem_cons_of_mem _ he'))
      (setCol_preserves_allNa h e.1 _ (hl e (List.mem_cons_self _ _)))

theorem foldl_establishes_allNa (d : Frame) (l : List (String × Src)) {f : Frame} {c : String}
    (hin : ∃ s, (c, s) ∈ l)
    (hall : ∀ e ∈ l, e.1 = c → evalSrc d e.2 = SetVal.scalar Cell.na) :
    allNa (l.foldl (stepFn d) f) c := by
  induction l generalizing f with
  | nil =>
    rcases hin with ⟨s, hs⟩
    simp at hs
  | cons e rest ih =>
    simp only [List.foldl_cons]
    by_cases hc : e.1 = c
    · apply foldl_preserves_allNa
      · intro e' he'
        by_cases hc' : e'.1 = c
        · exact Or.inr (hall e' (List.mem_cons_of_mem _ he') hc')
        · exact Or.inl hc'
      · show allNa (f.setCol e.1 (evalSrc d e.2)) c
        rw [hall e (List.mem_cons_self _ _) hc, hc]
        unfold allNa Frame.getCol
        simp only [Frame.setCol]
        exact lookup_upsert_self _ _ _
    · rcases hin with ⟨s, hs⟩
      rcases List.mem_cons.1 hs with h1 | h1
      · exact absurd (by rw [← h1]) hc
      · exact ih ⟨s, h1⟩ (fun e' he' => hall e' (List.mem_cons_of_mem _ he'))

theorem getCol_eq_none_iff (f : Frame) (c : String) :
    f.getCol c = none ↔ c ∉ f.colNames :=
  lookupCol_eq_none_iff c f.cols

theorem sourcedPairs_eq :
    sourcedPairs = [("PO NUMBER", "PoNumber"), ("Quantity", "Quantity"),
      ("VENDOR CHALLAN NO", "Vendor Challan No"), ("Challan Date", "Challan Date"),
      ("Gross Rate", "Gross Rate"), ("Net P O Rate", "Gross Rate"),
      ("Basic Value", "Basic value"), ("Taxable Value", "Basic value"),
      ("IGST VALUE", "IGST VALUE"), ("INVOICE VALUE", "INVOICE VALUE"),
      ("GSTIN Number", "GSTIN Number"), ("TML GSTIN", "TML GSTIN"), ("IRN", "IRN")] := rfl

theorem transform_missing_allNa {df : Frame} {out src : String}
    (hmem : (out, src) ∈ sourcedPairs) (hmiss : src ∉ (applyRenames df).colNames) :
    allNa (transform_data df) out := by
  have hnone : (applyRenames df).getCol src = none := (getCol_eq_none_iff _ _).2 hmiss
  have key : ((out, Src.col src) ∈ plan) ∧ ∀ e ∈ plan, e.1 = out → e.2 = Src.col src := by
    rw [sourcedPairs_eq] at hmem
    fin_cases hmem <;> exact ⟨by decide, by decide⟩
  unfold transform_data projectPlan
  apply foldl_establishes_allNa _ _ ⟨Src.col src, key.1⟩
  intro e he h1
  rw [key.2 e he h1]
  simp only [evalSrc, hnone]

theorem foldl_idx_preserved (d : Frame) (l : List (String × Src)) {f : Frame}
    (h : f.idx ≠ 0) : (l.foldl (stepFn d) f).idx = f.idx := by
  induction l generalizing f with
  | nil => rfl
  | cons e rest ih =>
    simp only [List.foldl_cons]
    have hstep : (stepFn d f e).idx = f.idx := by
      rw [stepFn]
      cases hv : evalSrc d e.2 with
      | scalar x => exact setCol_idx_scalar f e.1 x
      | series xs =>
        rw [setCol_idx_series]
        rw [if_neg (fun hq => h hq.1)]
    rw [ih (by rw [hstep]; exact h), hstep]

theorem foldl_idx_zero (d : Frame) (l : List (String × Src)) {f : Frame}
    (h : f.idx = 0) (hz : ∀ k xs, d.getCol k = some xs → xs = []) :
    (l.foldl (stepFn d) f).idx = 0 := by
  induction l generalizing f with
  | nil => exact h
  | cons e rest ih =>
    simp only [List.foldl_cons]
    apply ih
    rw [stepFn]
    rcases hv : evalSrc d e.2 with xs | x
    · have hxs : xs = [] := by
        rcases he : e.2 with k | s
        · rw [he] at hv
          cases hg : Frame.getCol d k with
          | none =>
            simp only [evalSrc, hg] at hv
            exact SetVal.noConfusion hv
          | some ys =>
            simp only [evalSrc, hg] at hv
            injection hv with hinj
            rw [← hinj]
            exact hz k ys hg
        · rw [he] at hv
          simp only [evalSrc] at hv
          exact SetVal.noConfusion hv
      subst hxs
      rw [setCol_idx_series]
      simp [h]
    · rw [setCol_idx_scalar]
      exact h

theorem foldl_renameIf_id (ps : List (String × String)) (f : Frame)
    (h : ∀ p ∈ ps, p.1 ∉ f.colNames) :
    ps.foldl (fun g p => g.renameIf p.1 p.2) f = f := by
  induction ps with
  | nil => rfl
  | cons p rest ih =>
    simp only [List.foldl_cons]
    rw [Frame.renameIf, if_neg (h p (List.mem_cons_self _ _))]
    exact ih (fun q hq => h q (List.mem_cons_of_mem _ hq))

theorem applyRenames_id {f : Frame} (h : f.colNames = outputSchema) : applyRenames f = f := by
  apply foldl_renameIf_id
  intro p hp
  rw [h]
  fin_cases hp <;> decide

theorem plan_decomp :
    plan = ("PO NUMBER", Src.col "PoNumber") :: ("PO Item No", Src.const "") ::
      ("Quantity", Src.col "Quantity") :: plan.drop 3 := rfl

theorem transform_transform_idx (df : Frame) :
    (transform_data (transform_data df)).idx = (transform_data df).idx := by
  have hcn : (transform_data df).colNames = outputSchema := transform_colNames df
  have hWF : FrameWF (transform_data df) := projectPlan_WF (applyRenames df)
  generalize transform_data df = T at hcn hWF ⊢
  rw [show transform_data T = projectPlan (applyRenames T) from rfl, applyRenames_id hcn]
  by_cases hidx : T.idx = 0
  · have hz : ∀ k xs, T.getCol k = some xs → xs = [] := by
      intro k xs hk
      have hl := hWF _ (lookupCol_mem hk)
      rw [hidx] at hl
      exact List.length_eq_zero.1 hl
    rw [projectPlan, foldl_idx_zero T plan rfl hz, hidx]
  · have hpo : T.getCol "PoNumber" = none := by
      apply (getCol_eq_none_iff _ _).2
      rw [hcn]
      decide
    have hqm : "Quantity" ∈ T.colNames := by
      rw [hcn]
      decide
    obtain ⟨q, hq⟩ := lookupCol_isSome_of_mem hqm
    have hq' : T.getCol "Quantity" = some q := hq
    have hlen : q.length = T.idx := hWF _ (lookupCol_mem hq)
    rw [projectPlan, plan_decomp, List.foldl_cons, List.foldl_cons, List.foldl_cons]
    have hidx3 :
        (stepFn T (stepFn T (stepFn T Frame.empty ("PO NUMBER", Src.col "PoNumber"))
          ("PO Item No", Src.const "")) ("Quantity", Src.col "Quantity")).idx = T.idx := by
      simp only [stepFn, evalSrc, hpo, hq']
      rw [setCol_idx_series, if_pos]
      · exact hlen
      · constructor
        · rfl
        · cases q with
          | nil => exact absurd hlen.symm (by simpa using hidx)
          | cons a as => rfl
    rw [foldl_idx_preserved _ _ (by rw [hidx3]; exact hidx), hidx3]

theorem renameCol_colNames (f : Frame) (o n : String) :
    (f.renameCol o n).colNames = f.colNames.map (fun c => if c = o then n else c) := by
  unfold Frame.renameCol Frame.colNames
  rw [List.map_map, List.map_map]
  exact List.map_congr_left (fun p _ => rfl)

theorem renameIf_kill {f : Frame} {o n : String} (hne : o ≠ n) :
    o ∉ (f.renameIf o n).colNames := by
  unfold Frame.renameIf
  split
  · rw [renameCol_colNames]
    intro hmem
    rcases List.mem_map.1 hmem with ⟨c, hc, hce⟩
    by_cases h1 : c = o
    · rw [if_pos h1] at hce
      exact hne hce.symm
    · rw [if_neg h1] at hce
      exact h1 hce
  · exact (by assumption)

theorem renameIf_preserve_notmem {f : Frame} {o n c : String} (hc : c ∉ f.colNames)
    (hn : c ≠ n) : c ∉ (f.renameIf o n).colNames := by
  unfold Frame.renameIf
  split
  · rw [renameCol_colNames]
    intro hmem
    rcases List.mem_map.1 hmem with ⟨c', hc', hce⟩
    by_cases h1 : c' = o
    · rw [if_pos h1] at hce
      exact hn hce.symm
    · rw [if_neg h1] at hce
      exact hc (hce ▸ hc')
  · exact hc

theorem renameIf_preserve_mem {f : Frame} {o n c : String} (hc : c ∈ f.colNames)
    (ho : c ≠ o) : c ∈ (f.renameIf o n).colNames := by
  unfold Frame.renameIf
  split
  · rw [renameCol_colNames]
    refine List.mem_map.2 ⟨c, hc, ?_⟩
    rw [if_neg ho]
  · exact hc

theorem renameIf_target_mem {f : Frame} {o n : String} (ho : o ∈ f.colNames) :
    n ∈ (f.renameIf o n).colNames := by
  unfold Frame.renameIf
  rw [if_pos ho, renameCol_colNames]
  exact List.mem_map.2 ⟨o, ho, by rw [if_pos rfl]⟩

theorem foldl_renameIf_notmem (ps : List (String × String)) {f : Frame} {o : String}
    (h : o ∉ f.colNames) (hps : ∀ p ∈ ps, p.2 ≠ o) :
    o ∉ (ps.foldl (fun g p => g.renameIf p.1 p.2) f).colNames := by
  induction ps generalizing f with
  | nil => exact h
  | cons p rest ih =>
    simp only [List.foldl_cons]
    exact ih (renameIf_preserve_notmem h (Ne.symm (hps p (List.mem_cons_self _ _))))
      (fun q hq => hps q (List.mem_cons_of_mem _ hq))

theorem foldl_renameIf_mem (ps : List (String × String)) {f : Frame} {c : String}
    (hc : c ∈ f.colNames) (h : ∀ p ∈ ps, p.1 ≠ c) :
    c ∈ (ps.foldl (fun g p => g.renameIf p.1 p.2) f).colNames := by
  induction ps generalizing f with
  | nil => exact hc
  | cons p rest ih =>
    simp only [List.foldl_cons]
    exact ih (renameIf_preserve_mem hc (Ne.symm (h p (List.mem_cons_self _ _))))
      (fun q hq => h q (List.mem_cons_of_mem _ hq))

theorem foldl_renameIf_kill (ps : List (String × String)) {f : Frame} {o : String}
    (hin : ∃ n, (o, n) ∈ ps) (hps : ∀ p ∈ ps, p.2 ≠ o) :
    o ∉ (ps.foldl (fun g p => g.renameIf p.1 p.2) f).colNames := by
  induction ps generalizing f with
  | nil =>
    rcases hin with ⟨n, hn⟩
    simp at hn
  | cons p rest ih =>
    simp only [List.foldl_cons]
    by_cases hp : p.1 = o
    · subst hp
      apply foldl_renameIf_notmem
      · exact renameIf_kill (Ne.symm (hps p (List.mem_cons_self _ _)))
      · exact fun q hq => hps q (List.mem_cons_of_mem _ hq)
    · rcases hin with ⟨n, hn⟩
      rcases List.mem_cons.1 hn with h1 | h1
      · exact absurd (by rw [← h1]) hp
      · exact ih ⟨n, h1⟩ (fun q hq => hps q (List.mem_cons_of_mem _ hq))

theorem foldl_renameIf_target (ps : List (String × String)) {f : Frame} {o n : String}
    (hin : (o, n) ∈ ps) (ho : o ∈ f.colNames)
    (hsrc : ∀ p ∈ ps, p.1 ≠ o ∨ p = (o, n))
    (htgt : ∀ p ∈ ps, p.1 ≠ n) :
    n ∈ (ps.foldl (fun g p => g.renameIf p.1 p.2) f).colNames := by
  induction ps generalizing f with
  | nil => simp at hin
  | cons p rest ih =>
    simp only [List.foldl_cons]
    by_cases hpo : p = (o, n)
    · rw [hpo]
      exact foldl_renameIf_mem rest (renameIf_target_mem ho)
        (fun q hq => htgt q (List.mem_cons_of_mem _ hq))
    · have hne : p.1 ≠ o := (hsrc p (List.mem_cons_self _ _)).resolve_right hpo
      have h1 : (o, n) ∈ rest := by
        rcases List.mem_cons.1 hin with h2 | h2
        · exact absurd h2.symm hpo
        · exact h2
      exact ih h1 (renameIf_preserve_mem ho (Ne.symm hne))
        (fun q hq => hsrc q (List.mem_cons_of_mem _ hq))
        (fun q hq => htgt q (List.mem_cons_of_mem _ hq))



/- ================================================================== -/
/- Lemmas about fence stripping. -/

theorem string_data_append (s t : String) : (s ++ t).data = s.data ++ t.data := rfl

theorem string_mk_data (s : String) : String.mk s.data = s := by
  cases s
  rfl

theorem afterFirst_cons (pat : List Char) (c : Char) (cs : List Char) :
    afterFirst pat (c :: cs) =
      if pat.isPrefixOf (c :: cs) then some ((c :: cs).drop pat.length)
      else afterFirst pat cs := rfl

theorem takeUntil_cons (pat : List Char) (c : Char) (cs : List Char) :
    takeUntil pat (c :: cs) =
      if pat.isPrefixOf (c :: cs) then [] else c :: takeUntil pat cs := rfl

theorem tickpat_prefix_cons (p : List Char) {c : Char} (l : List Char) (hc : tick ≠ c) :
    ¬ (tick :: p).isPrefixOf (c :: l) = true := by
  simp [List.isPrefixOf_cons₂, hc]

theorem tickpat_prefix_notick (p : List Char) {l : List Char} (h : tick ∉ l) :
    ¬ (tick :: p).isPrefixOf l = true := by
  cases l with
  | nil => simp [List.isPrefixOf]
  | cons c cs =>
    exact tickpat_prefix_cons p cs (fun hq => h (hq ▸ List.mem_cons_self _ _))

theorem afterFirst_skip (p : List Char) {a : List Char} (b : List Char) (ha : tick ∉ a) :
    afterFirst (tick :: p) (a ++ b) = afterFirst (tick :: p) b := by
  induction a with
  | nil => rfl
  | cons c cs ih =>
    have hc : tick ≠ c := fun hq => ha (hq ▸ List.mem_cons_self _ _)
    rw [List.cons_append, afterFirst_cons, if_neg (tickpat_prefix_cons p _ hc)]
    exact ih (fun hq => ha (List.mem_cons_of_mem _ hq))

theorem afterFirst_noTick (p : List Char) {a : List Char} (ha : tick ∉ a) :
    afterFirst (tick :: p) a = none := by
  induction a with
  | nil => rfl
  | cons c cs ih =>
    have hc : tick ≠ c := fun hq => ha (hq ▸ List.mem_cons_self _ _)
    rw [afterFirst_cons, if_neg (tickpat_prefix_cons p _ hc)]
    exact ih (fun hq => ha (List.mem_cons_of_mem _ hq))

theorem afterFirst_pref {pat : List Char} (rest : List Char) (hne : pat ≠ []) :
    afterFirst pat (pat ++ rest) = some rest := by
  cases pat with
  | nil => exact absurd rfl hne
  | cons c p =>
    rw [List.cons_append, afterFirst_cons, if_pos]
    · rw [show c :: (p ++ rest) = (c :: p) ++ rest from rfl, List.drop_left]
    · exact List.isPrefixOf_iff_prefix.2 (by rw [show c :: (p ++ rest) = (c :: p) ++ rest from rfl]; exact List.prefix_append _ _)

theorem takeUntil_skip (p : List Char) {a : List Char} (b : List Char) (ha : tick ∉ a) :
    takeUntil (tick :: p) (a ++ b) = a ++ takeUntil (tick :: p) b := by
  induction a with
  | nil => rfl
  | cons c cs ih =>
    have hc : tick ≠ c := fun hq => ha (hq ▸ List.mem_cons_self _ _)
    rw [List.cons_append, takeUntil_cons, if_neg (tickpat_prefix_cons p _ hc), List.cons_append,
      ih (fun hq => ha (List.mem_cons_of_mem _ hq))]

theorem takeUntil_noTick (p : List Char) {a : List Char} (ha : tick ∉ a) :
    takeUntil (tick :: p) a = a := by
  induction a with
  | nil => rfl
  | cons c cs ih =>
    have hc : tick ≠ c := fun hq => ha (hq ▸ List.mem_cons_self _ _)
    rw [takeUntil_cons, if_neg (tickpat_prefix_cons p _ hc),
      ih (fun hq => ha (List.mem_cons_of_mem _ hq))]

theorem takeUntil_pref {pat : List Char} (l : List Char) (h : pat.isPrefixOf l = true)
    (hne : pat ≠ []) : takeUntil pat l = [] := by
  cases l with
  | nil =>
    cases pat with
    | nil => rfl
    | cons c p => simp at h
  | cons c cs => rw [takeUntil_cons, if_pos h]

theorem takeUntil_eq_self {pat : List Char} {l : List Char}
    (h : ∀ l₂, l₂ <:+ l → ¬ pat.isPrefixOf l₂ = true) : takeUntil pat l = l := by
  induction l with
  | nil => rfl
  | cons c cs ih =>
    rw [takeUntil_cons, if_neg (h (c :: cs) (List.suffix_refl _))]
    rw [ih (fun l₂ hl₂ => h l₂ (hl₂.trans (List.suffix_cons _ _)))]

theorem stripPayload_eq_of {raw : String}
    (h : containsSub "```json".data raw.data = true) :
    stripPayload raw = match afterFirst "```json\n".data raw.data with
      | some rest => some ⟨takeUntil "```".data (takeUntil "```json\n".data rest)⟩
      | none => none := by
  unfold stripPayload
  rw [h]
  rfl

theorem stripPayload_not_contains {s : String}
    (h : containsSub "```json".data s.data = false) : stripPayload s = some s := by
  unfold stripPayload
  rw [h]
  rfl

theorem stripPayload_noTick {t : String} (ht : noTick t) : stripPayload t = some t := by
  apply stripPayload_not_contains
  unfold containsSub
  rw [show "```json".data = tick :: "``json".data from rfl, afterFirst_noTick _ ht]
  rfl

theorem stripPayload_fenced {pre t post : String} (hpre : noTick pre) (ht : noTick t)
    (hpost : noTick post) :
    stripPayload (pre ++ "```json\n" ++ t ++ "```" ++ post) = some t := by
  have hdata : (pre ++ "```json\n" ++ t ++ "```" ++ post).data
      = pre.data ++ ("```json\n".data ++ (t.data ++ ("```".data ++ post.data))) := by
    simp [string_data_append, List.append_assoc]
  have hcontains :
      containsSub "```json".data (pre ++ "```json\n" ++ t ++ "```" ++ post).data = true := by
    rw [hdata]
    unfold containsSub
    rw [show "```json".data = tick :: "``json".data from rfl, afterFirst_skip _ _ hpre]
    rw [show "```json\n".data ++ (t.data ++ ("```".data ++ post.data))
        = (tick :: "``json".data) ++ ('\n' :: (t.data ++ ("```".data ++ post.data))) from rfl]
    rw [afterFirst_pref _ (by simp)]
    rfl
  have hAF : afterFirst "```json\n".data (pre ++ "```json\n" ++ t ++ "```" ++ post).data
      = some (t.data ++ ("```".data ++ post.data)) := by
    rw [hdata]
    rw [show "```json\n".data = tick :: "``json\n".data from rfl, afterFirst_skip _ _ hpre]
    exact afterFirst_pref _ (by simp)
  have hTU : takeUntil "```".data
      (takeUntil "```json\n".data (t.data ++ ("```".data ++ post.data))) = t.data := by
    rw [show "```json\n".data = tick :: "``json\n".data from rfl, takeUntil_skip _ _ ht]
    by_cases hjs : ("json\n".data).isPrefixOf post.data = true
    · obtain ⟨q, hq⟩ := List.isPrefixOf_iff_prefix.1 hjs
      rw [← hq]
      rw [show "```".data ++ ("json\n".data ++ q) = (tick :: "``json\n".data) ++ q from rfl]
      rw [takeUntil_pref _ (List.isPrefixOf_iff_prefix.2 (List.prefix_append _ _)) (by simp)]
      rw [List.append_nil, show "```".data = tick :: "``".data from rfl]
      exact takeUntil_noTick _ ht
    · have hall : takeUntil (tick :: "``json\n".data) ("```".data ++ post.data)
          = "```".data ++ post.data := by
        apply takeUntil_eq_self
        intro l₂ hl₂
        rw [show "```".data ++ post.data = tick :: tick :: tick :: post.data from rfl] at hl₂
        intro hcontra
        rw [List.isPrefixOf_iff_prefix,
          show (tick :: "``json\n".data) = tick :: tick :: tick :: "json\n".data from rfl]
          at hcontra
        rcases List.suffix_cons_iff.1 hl₂ with h1 | hl₂
        · subst h1
          simp only [List.cons_prefix_cons, true_and] at hcontra
          exact hjs (List.isPrefixOf_iff_prefix.2 hcontra)
        rcases List.suffix_cons_iff.1 hl₂ with h1 | hl₂
        · subst h1
          simp only [List.cons_prefix_cons, true_and] at hcontra
          exact hpost (hcontra.subset (List.mem_cons_self _ _))
        rcases List.suffix_cons_iff.1 hl₂ with h1 | hl₂
        · subst h1
          simp only [List.cons_prefix_cons, true_and] at hcontra
          exact hpost (hcontra.subset (List.mem_cons_self _ _))
        · exact hpost (List.IsSuffix.mem (hcontra.subset (List.mem_cons_self _ _)) hl₂)
      rw [hall]
      rw [show "```".data = tick :: "``".data from rfl, takeUntil_skip _ _ ht]
      rw [takeUntil_pref _ (List.isPrefixOf_iff_prefix.2 (List.prefix_append _ _)) (by simp)]
      exact List.append_nil _
  rw [stripPayload_eq_of hcontains, hAF]
  show some (String.mk (takeUntil "```".data
    (takeUntil "```json\n".data (t.data ++ ("```".data ++ post.data))))) = some t
  rw [hTU, string_mk_data]

/- ================================================================== -/
/- Lemmas about the service-mode orchestrator. -/

theorem runBatch_append (ds l : List Doc) (acc : List JVal) (evs : List Event)
    (h : ∀ d ∈ ds, okDoc d) :
    MainPy.runBatch (ds ++ l) acc evs
      = MainPy.runBatch l (acc ++ ds.filterMap docRec) (evs ++ ds.flatMap docTrace) := by
  induction ds generalizing acc evs with
  | nil => simp
  | cons d rest ih =>
    obtain ⟨hct, ⟨ps, hps⟩, ⟨raw, hraw⟩⟩ := h d (List.mem_cons_self _ _)
    have hrest : ∀ x ∈ rest, okDoc x := fun x hx => h x (List.mem_cons_of_mem _ hx)
    have hrawOf : rawOf d = raw := by simp only [rawOf, hraw]
    rw [List.cons_append]
    simp only [MainPy.runBatch, MainPy.extract_text_from_pdf, MainPy.get_info_from_llm,
      hps, hraw, hct, ne_eq, not_true_eq_false, if_false]
    cases hpr : parse_response raw with
    | some r =>
      simp [ih _ _ hrest, docRec, docTrace, hrawOf, hpr, List.append_assoc]
    | none =>
      simp [ih _ _ hrest, docRec, docTrace, hrawOf, hpr, List.append_assoc]

theorem runBatch_ok (ds : List Doc) (acc : List JVal) (evs : List Event)
    (h : ∀ d ∈ ds, okDoc d) :
    MainPy.runBatch ds acc evs
      = (.ok (acc ++ ds.filterMap docRec), evs ++ ds.flatMap docTrace) := by
  have h2 := runBatch_append ds [] acc evs h
  rw [List.append_nil] at h2
  rw [h2]
  rfl

theorem file_detail_ne (x : String) :
    "File \x27" ++ x ++ "\x27 is not a PDF."
      ≠ "You can only upload a maximum of 10 files at a time." := by
  intro h
  have h2 := congrArg String.data h
  rw [show ("File \x27" ++ x ++ "\x27 is not a PDF.") = ("File \x27" ++ x) ++ "\x27 is not a PDF." from rfl] at h2
  rw [string_data_append, string_data_append] at h2
  rw [show "File \x27".data = 'F' :: "ile \x27".data from rfl] at h2
  rw [show "You can only upload a maximum of 10 files at a time.".data
      = 'Y' :: "ou can only upload a maximum of 10 files at a time.".data from rfl] at h2
  simp only [List.cons_append, List.append_assoc, List.cons.injEq] at h2
  exact absurd h2.1 (by decide)

theorem runBatch_ne_limit (files : List Doc) (acc : List JVal) (evs : List Event) :
    (MainPy.runBatch files acc evs).1
      ≠ Except.error ⟨400, "You can only upload a maximum of 10 files at a time."⟩ := by
  induction files generalizing acc evs with
  | nil => simp [MainPy.runBatch]
  | cons f rest ih =>
    simp only [MainPy.runBatch]
    split
    · intro h
      simp only [Except.error.injEq, HErr.mk.injEq] at h
      exact file_detail_ne f.filename h.2
    · cases hps : f.pages with
      | error e =>
        simp only [MainPy.extract_text_from_pdf, hps]
        intro h
        simp only [Except.error.injEq, HErr.mk.injEq] at h
        exact absurd h.1 (by decide)
      | ok ps =>
        simp only [MainPy.extract_text_from_pdf, hps]
        cases hllm : f.llm with
        | error e =>
          simp only [MainPy.get_info_from_llm, hllm]
          intro h
          simp only [Except.error.injEq, HErr.mk.injEq] at h
          exact absurd h.1 (by decide)
        | ok raw =>
          simp only [MainPy.get_info_from_llm, hllm]
          cases parse_response raw with
          | some r => exact ih _ _
          | none => exact ih _ _

theorem extract_over_limit (files : List Doc) (h : 10 < files.length) :
    MainPy.extract_data_from_pdfs files
      = (.error ⟨400, "You can only upload a maximum of 10 files at a time."⟩, []) := by
  unfold MainPy.extract_data_from_pdfs
  rw [if_pos (by omega)]

theorem extract_ne_limit (files : List Doc) (h10 : files.length ≤ 10) :
    (MainPy.extract_data_from_pdfs files).1
      ≠ Except.error ⟨400, "You can only upload a maximum of 10 files at a time."⟩ := by
  have hne := runBatch_ne_limit files [] []
  unfold MainPy.extract_data_from_pdfs
  rw [if_neg (by omega)]
  rcases hr : MainPy.runBatch files [] [] with ⟨res, evs⟩
  rw [hr] at hne
  cases res with
  | error e => simpa using hne
  | ok all_data =>
    by_cases hempty : all_data.isEmpty
    · simp only [hempty, if_true]
      intro h
      simp only [Except.error.injEq, HErr.mk.injEq] at h
      exact absurd h.2 (by decide)
    · simp only [hempty, if_false]
      simp

/- ================================================================== -/
/- Lemmas about the interactive-mode orchestrator. -/

theorem foldlM_pages_ok (ps : List (Option String)) (acc : String)
    (hall : ∀ p ∈ ps, p ≠ none) :
    ∃ s, ps.foldlM (fun acc p => match p with
      | some t => Except.ok (acc ++ t)
      | none => Except.error "TypeError: can only concatenate str (not \"NoneType\") to str") acc
      = Except.ok s := by
  induction ps generalizing acc with
  | nil => exact ⟨acc, rfl⟩
  | cons p rest ih =>
    cases p with
    | some t =>
      simpa using ih (acc ++ t) (fun q hq => hall q (List.mem_cons_of_mem _ hq))
    | none => exact absurd rfl (hall none (List.mem_cons_self _ _))

theorem app_extract_ok {d : Doc} {ps : List (Option String)} (hps : d.pages = Except.ok ps)
    (hall : ∀ p ∈ ps, p ≠ none) :
    ∃ s, AppPy.extract_text_from_pdf d = Except.ok s := by
  unfold AppPy.extract_text_from_pdf
  rw [hps]
  exact foldlM_pages_ok ps "" hall

theorem app_go_append (ds l : List Doc) (acc : List JVal) (panels : List (String × String))
    (h : ∀ d ∈ ds, okDoc d ∧ okDocApp d) :
    AppPy.app_go (ds ++ l) acc panels
      = AppPy.app_go l (acc ++ ds.filterMap docRec) (panels ++ ds.filterMap docPanelOpt) := by
  induction ds generalizing acc panels with
  | nil => simp
  | cons d rest ih =>
    obtain ⟨⟨hct, ⟨ps, hps⟩, ⟨raw, hraw⟩⟩, hApp⟩ := h d (List.mem_cons_self _ _)
    obtain ⟨ps2, hps2, hall2⟩ := hApp
    have hps2' : ps2 = ps := by
      rw [hps] at hps2
      injection hps2 with h2
      exact h2.symm
    subst hps2'
    obtain ⟨stext, hst⟩ := app_extract_ok hps hall2
    have hrest : ∀ x ∈ rest, okDoc x ∧ okDocApp x := fun x hx => h x (List.mem_cons_of_mem _ hx)
    have hrawOf : rawOf d = raw := by simp only [rawOf, hraw]
    rw [List.cons_append]
    simp only [AppPy.app_go, hst, hraw]
    cases hpr : parse_response raw with
    | some r =>
      simp [ih _ _ hrest, docRec, docPanelOpt, hrawOf, hpr, List.append_assoc]
    | none =>
      simp [ih _ _ hrest, docRec, docPanelOpt, docPanel, hrawOf, hpr, List.append_assoc]

/- ================================================================== -/
/- Claim theorems. -/

/-- C1 (counterexample): on a non-empty input table the transformer's output has
34 columns, not 31 as the claim states. -/
theorem c1_counterexample :
    (transform_data dfQuantity).cols.length = 34 ∧
      (transform_data dfQuantity).cols.length ≠ 31 := by
  refine ⟨rfl, ?_⟩
  intro h
  rw [show (transform_data dfQuantity).cols.length = 34 from rfl] at h
  exact absurd h (by decide)

/-- C1 (amended): for every input table (whatever source fields are present) the
Schema Transformer's output has exactly the 34 columns of the spec §6 list, with
those names in that order. -/
theorem c1_amended (df : Frame) :
    (transform_data df).colNames = outputSchema ∧ outputSchema.length = 34 :=
  ⟨transform_colNames df, rfl⟩

/-- C2 (counterexample): with source key `Quantity` missing, the `Quantity` output
column holds NaN, not the empty string, in its row. -/
theorem c2_counterexample :
    (transform_data dfPoNumber).getCol "Quantity" = some [Cell.na] ∧
      (transform_data dfPoNumber).getCol "Quantity" ≠ some [Cell.v (JVal.str "")] := by
  refine ⟨rfl, ?_⟩
  intro h
  rw [show (transform_data dfPoNumber).getCol "Quantity" = some [Cell.na] from rfl] at h
  injection h with h2
  injection h2 with h3 h4
  exact Cell.noConfusion h3

/-- C2 (amended): the service-mode Schema Transformer (`transform_data`) is total
and never raises, but an output column whose source key is missing from the
(renamed) input holds the missing value NaN in every row, not the empty string;
the interactive-mode inline reshape is not total: it raises KeyError when a
source column is absent. -/
theorem c2_amended :
    (∀ (df : Frame) (out src : String), (out, src) ∈ sourcedPairs →
        src ∉ (applyRenames df).colNames →
        (transform_data df).getCol out
          = some (List.replicate (transform_data df).idx Cell.na)) ∧
      AppPy.app_transform dfQuantity = Except.error "KeyError: PoNumber" := by
  constructor
  · intro df out src hmem hmiss
    exact transform_missing_allNa hmem hmiss
  · rfl

/-- C2 (witness): the `VENDOR CHALLAN NO` column is NaN-filled when the input
lacks `Vendor Challan No`. -/
theorem c2_amended_witness :
    (transform_data dfPoNumber).getCol "VENDOR CHALLAN NO"
      = some (List.replicate (transform_data dfPoNumber).idx Cell.na) :=
  c2_amended.1 dfPoNumber "VENDOR CHALLAN NO" "Vendor Challan No" (by decide) (by decide)

/-- C3 (counterexample): the Schema Transformer is not idempotent: applying it to
its own output loses the `PO NUMBER` value obtained from `Buyer's Order No.`. -/
theorem c3_counterexample :
    transform_data (transform_data dfBuyer) ≠ transform_data dfBuyer := by
  intro h
  have h2 : (transform_data (transform_data dfBuyer)).getCol "PO NUMBER"
      = (transform_data dfBuyer).getCol "PO NUMBER" := by rw [h]
  rw [show (transform_data (transform_data dfBuyer)).getCol "PO NUMBER"
      = some [Cell.na] from rfl] at h2
  rw [show (transform_data dfBuyer).getCol "PO NUMBER"
      = some [Cell.v (JVal.str "A")] from rfl] at h2
  injection h2 with h3
  injection h3 with h4 h5
  exact Cell.noConfusion h4

/-- C3 (amended): reapplying the transformer preserves only the 34-column schema
(names and order) and the row count, not the values. -/
theorem c3_amended (df : Frame) :
    (transform_data (transform_data df)).colNames = (transform_data df).colNames ∧
      (transform_data (transform_data df)).idx = (transform_data df).idx :=
  ⟨by rw [transform_colNames, transform_colNames], transform_transform_idx df⟩

/-- C9: the claim matches main.py's extractor, which maps a page with no
extractable text to the empty string (`or ""`) and never raises; app.py's
extractor is the slip: the same readable PDF with a blank page raises TypeError
(`text += page.extract_text()` with None). -/
theorem c9_blank_page :
    MainPy.extract_text_from_pdf docBlankPage = Except.ok "ab" ∧
      AppPy.extract_text_from_pdf docBlankPage
        = Except.error "TypeError: can only concatenate str (not \"NoneType\") to str" :=
  ⟨rfl, rfl⟩

theorem renamePairs_target_ne_source : ∀ q ∈ renamePairs, ∀ p ∈ renamePairs, p.2 ≠ q.1 := by
  intro q hq
  fin_cases hq <;> exact (by decide)

theorem renamePairs_sources_distinct :
    ∀ q ∈ renamePairs, ∀ p ∈ renamePairs, p.1 ≠ q.1 ∨ p = q := by
  intro q hq
  fin_cases hq <;> exact (by decide)

theorem renamePairs_source_ne_target : ∀ q ∈ renamePairs, ∀ p ∈ renamePairs, p.1 ≠ q.2 := by
  intro q hq
  fin_cases hq <;> exact (by decide)

/-- C10: `transform_data` renames its argument in place: after the call the
caller's table has each present source key (e.g. `InvoiceNo`) replaced by its
target (`Vendor Challan No`), so the original aggregate table is not preserved. -/
theorem c10_mutation (df : Frame) (o n : String) (hmem : (o, n) ∈ renamePairs)
    (ho : o ∈ df.colNames) :
    transform_data_full df = (applyRenames df, transform_data df) ∧
      o ∉ (applyRenames df).colNames ∧
      n ∈ (applyRenames df).colNames ∧
      applyRenames df ≠ df := by
  have hkill : o ∉ (applyRenames df).colNames := by
    unfold applyRenames
    apply foldl_renameIf_kill
    · exact ⟨n, hmem⟩
    · exact fun p hp => renamePairs_target_ne_source (o, n) hmem p hp
  have htgt : n ∈ (applyRenames df).colNames := by
    unfold applyRenames
    apply foldl_renameIf_target renamePairs hmem ho
    · exact fun p hp => renamePairs_sources_distinct (o, n) hmem p hp
    · exact fun p hp => renamePairs_source_ne_target (o, n) hmem p hp
  refine ⟨rfl, hkill, htgt, ?_⟩
  intro hEq
  rw [hEq] at hkill
  exact hkill ho

/-- C10 (witness): a table holding an `InvoiceNo` column is mutated: the caller's
table ends up with `Vendor Challan No` instead. -/
theorem c10_mutation_witness :
    transform_data_full dfInvoice = (applyRenames dfInvoice, transform_data dfInvoice) ∧
      "InvoiceNo" ∉ (applyRenames dfInvoice).colNames ∧
      "Vendor Challan No" ∈ (applyRenames dfInvoice).colNames ∧
      applyRenames dfInvoice ≠ dfInvoice :=
  c10_mutation dfInvoice "InvoiceNo" "Vendor Challan No" (by decide) (by decide)

theorem app_go_ne_overLimit (files : List Doc) (acc : List JVal)
    (panels : List (String × String)) :
    AppPy.app_go files acc panels ≠ AppPy.AppResult.overLimit := by
  induction files generalizing acc panels with
  | nil =>
    simp only [AppPy.app_go]
    split
    · exact fun h => AppPy.AppResult.noConfusion h
    · split
      · exact fun h => AppPy.AppResult.noConfusion h
      · exact fun h => AppPy.AppResult.noConfusion h
  | cons d rest ih =>
    simp only [AppPy.app_go]
    split
    · exact fun h => AppPy.AppResult.noConfusion h
    · split
      · exact fun h => AppPy.AppResult.noConfusion h
      · split
        · exact ih _ _
        · exact ih _ _

/-- C7: a batch of more than 10 files is rejected up front with the HTTP 400 batch
limit error and an empty event log — no file is read, no extraction and no LLM
call happens — and the Streamlit page only shows the limit error; for 1 to 10
files the limit is never triggered on either surface. -/
theorem c7_batch_limit (files : List Doc) :
    (10 < files.length →
        MainPy.extract_data_from_pdfs files
          = (.error ⟨400, "You can only upload a maximum of 10 files at a time."⟩, []) ∧
        AppPy.main files = AppPy.AppResult.overLimit) ∧
      (1 ≤ files.length → files.length ≤ 10 →
        (MainPy.extract_data_from_pdfs files).1
          ≠ .error ⟨400, "You can only upload a maximum of 10 files at a time."⟩ ∧
        AppPy.main files ≠ AppPy.AppResult.overLimit) := by
  constructor
  · intro h
    refine ⟨extract_over_limit files h, ?_⟩
    unfold AppPy.main
    rw [if_pos (by omega)]
  · intro h1 h10
    refine ⟨extract_ne_limit files h10, ?_⟩
    unfold AppPy.main
    rw [if_neg (by omega)]
    exact app_go_ne_overLimit files [] []

/-- C7 (witness): an 11-file upload is rejected with the limit error and no
processing events. -/
theorem c7_batch_limit_witness :
    MainPy.extract_data_from_pdfs
        [docGood, docGood, docGood, docGood, docGood, docGood, docGood, docGood,
         docGood, docGood, docGood]
      = (.error ⟨400, "You can only upload a maximum of 10 files at a time."⟩, []) ∧
      AppPy.main
        [docGood, docGood, docGood, docGood, docGood, docGood, docGood, docGood,
         docGood, docGood, docGood]
      = AppPy.AppResult.overLimit :=
  (c7_batch_limit _).1 (by decide)

/-- C4 (counterexample): an unreadable PDF in a two-document batch aborts the whole
request with HTTP 500; the second document is never extracted and never sent to
the LLM (no events for it), contradicting the claim that the remaining documents
are still processed. -/
theorem c4_counterexample :
    MainPy.extract_data_from_pdfs [docBadPdf, docGood]
      = (.error ⟨500, "Error processing PDF: boom"⟩,
          [Event.extractCalled "broken.pdf"]) := rfl

/-- C4 (amended): in service mode an ExtractionFailure or CompletionFailure aborts
the whole batch: the request fails with HTTP 500 at the failing document and no
subsequent document is read; only a ParseFailure is scoped to one document. -/
theorem c4_amended (pre : List Doc) (d : Doc) (post : List Doc)
    (hpre : ∀ x ∈ pre, okDoc x) (hct : d.content_type = "application/pdf")
    (hlen : (pre ++ d :: post).length ≤ 10) :
    (∀ e, d.pages = Except.error e →
        MainPy.extract_data_from_pdfs (pre ++ d :: post)
          = (.error ⟨500, "Error processing PDF: " ++ e⟩,
              pre.flatMap docTrace ++ [.extractCalled d.filename])) ∧
      (∀ ps e, d.pages = Except.ok ps → d.llm = Except.error e →
        MainPy.extract_data_from_pdfs (pre ++ d :: post)
          = (.error ⟨500, "Error calling OpenAI API: " ++ e⟩,
              pre.flatMap docTrace
                ++ [.extractCalled d.filename, .llmCalled d.filename])) := by
  constructor
  · intro e he
    have hrb : MainPy.runBatch (pre ++ d :: post) [] []
        = (.error ⟨500, "Error processing PDF: " ++ e⟩,
            pre.flatMap docTrace ++ [.extractCalled d.filename]) := by
      rw [runBatch_append pre (d :: post) [] [] hpre]
      simp only [MainPy.runBatch, MainPy.extract_text_from_pdf, he, hct, ne_eq,
        not_true_eq_false, if_false, List.nil_append]
    unfold MainPy.extract_data_from_pdfs
    rw [if_neg (by omega), hrb]
  · intro ps e hps he
    have hrb : MainPy.runBatch (pre ++ d :: post) [] []
        = (.error ⟨500, "Error calling OpenAI API: " ++ e⟩,
            pre.flatMap docTrace
              ++ [.extractCalled d.filename, .llmCalled d.filename]) := by
      rw [runBatch_append pre (d :: post) [] [] hpre]
      simp only [MainPy.runBatch, MainPy.extract_text_from_pdf,
        MainPy.get_info_from_llm, hps, he, hct, ne_eq, not_true_eq_false, if_false,
        List.nil_append]
    unfold MainPy.extract_data_from_pdfs
    rw [if_neg (by omega), hrb]

/-- C4 (witness): the amended behaviour at a concrete two-document batch. -/
theorem c4_amended_witness :
    MainPy.extract_data_from_pdfs [docLlmFail, docGood]
      = (.error ⟨500, "Error calling OpenAI API: rate limited"⟩,
          [Event.extractCalled "limited.pdf", Event.llmCalled "limited.pdf"]) := by
  have h := (c4_amended [] docLlmFail [docGood] (fun x hx => absurd hx (List.not_mem_nil x))
    rfl (by decide)).2 [some "text"] "rate limited" rfl rfl
  simpa using h

/-- C5: the Response Parser strips an optional JSON fence: with a fenced block the
parsed payload is exactly the content between the opening fence and the next
closing fence (text before and after is discarded), an unfenced response is
parsed verbatim, and a JSON object wrapped in a fence parses to the same record
as the bare JSON. -/
theorem c5_response_parse (pre t post : String) (r : JVal)
    (hpre : noTick pre) (ht : noTick t) (hpost : noTick post)
    (hparse : json_loads t = some r) :
    parse_response (pre ++ "```json\n" ++ t ++ "```" ++ post) = some r ∧
      parse_response t = some r ∧
      ∀ s : String, containsSub "```json".data s.data = false →
        parse_response s = json_loads s := by
  refine ⟨?_, ?_, ?_⟩
  · unfold parse_response
    rw [stripPayload_fenced hpre ht hpost]
    exact hparse
  · unfold parse_response
    rw [stripPayload_noTick ht]
    exact hparse
  · intro s hs
    unfold parse_response
    rw [stripPayload_not_contains hs]

/-- C5 (witness): a concrete fenced record parses to the same record as its bare
JSON. -/
theorem c5_response_parse_witness :
    parse_response ("Sure! " ++ "```json\n" ++ "\x7b\"IRN\": \"X\"\x7d" ++ "```" ++ " Done.")
        = some (JVal.obj [("IRN", JVal.str "X")]) ∧
      parse_response "\x7b\"IRN\": \"X\"\x7d" = some (JVal.obj [("IRN", JVal.str "X")]) ∧
      ∀ s : String, containsSub "```json".data s.data = false →
        parse_response s = json_loads s :=
  c5_response_parse "Sure! " "\x7b\"IRN\": \"X\"\x7d" " Done." (JVal.obj [("IRN", JVal.str "X")])
    (by unfold noTick; decide) (by unfold noTick; decide) (by unfold noTick; decide) rfl

/-- C6 (counterexample): a fenced but unparseable response is reported, but the
logged ParseFailure shows the reassigned stripped payload, not the original raw
text: the event carries "bad\n" while the raw response was the whole fenced
string, and the rest of the batch still runs. -/
theorem c6_counterexample :
    MainPy.extract_data_from_pdfs [docFencedBad, docGood]
      = (.ok [JVal.obj [("Quantity", JVal.str "5")]],
          [Event.extractCalled "fenced.pdf", Event.llmCalled "fenced.pdf",
           Event.parseFailed "fenced.pdf" "bad\n",
           Event.extractCalled "good.pdf", Event.llmCalled "good.pdf"]) ∧
      printedText (rawOf docFencedBad) ≠ rawOf docFencedBad := by
  refine ⟨rfl, ?_⟩
  intro h
  exact absurd h (by decide)

/-- C6 (amended): a document whose response parses neither as JSON nor as fenced
JSON contributes no record, one ParseFailure event naming that document is
logged — showing the reassigned extracted string, i.e. the stripped fence
payload when the fence split succeeded and the raw text otherwise — and every
subsequent document of the batch is still processed. -/
theorem c6_amended (pre : List Doc) (d : Doc) (post : List Doc)
    (h : ∀ x ∈ pre ++ d :: post, okDoc x)
    (hbad : parse_response (rawOf d) = none) :
    MainPy.runBatch (pre ++ d :: post) [] []
      = (.ok ((pre ++ post).filterMap docRec),
          pre.flatMap docTrace
            ++ [.extractCalled d.filename, .llmCalled d.filename,
                .parseFailed d.filename (printedText (rawOf d))]
            ++ post.flatMap docTrace) := by
  have hTr : docTrace d
      = [.extractCalled d.filename, .llmCalled d.filename,
         .parseFailed d.filename (printedText (rawOf d))] := by
    unfold docTrace
    rw [hbad]
    rfl
  have hRec : docRec d = none := hbad
  rw [runBatch_ok _ _ _ h]
  simp [List.filterMap_append, List.filterMap_cons, hRec, List.flatMap_append,
    List.flatMap_cons, hTr, List.append_assoc]

/-- C6 (witness): the amended behaviour at a concrete two-document batch with a
fenced unparseable first response. -/
theorem c6_amended_witness :
    MainPy.runBatch [docFencedBad, docGood] [] []
      = (.ok [JVal.obj [("Quantity", JVal.str "5")]],
          [Event.extractCalled "fenced.pdf", Event.llmCalled "fenced.pdf",
           Event.parseFailed "fenced.pdf" "bad\n",
           Event.extractCalled "good.pdf", Event.llmCalled "good.pdf"]) := by
  have h := c6_amended [] docFencedBad [docGood]
      (by
        intro x hx
        simp only [List.nil_append, List.mem_cons, List.not_mem_nil, or_false] at hx
        rcases hx with h1 | h2
        · subst h1; exact ⟨rfl, ⟨_, rfl⟩, ⟨_, rfl⟩⟩
        · subst h2; exact ⟨rfl, ⟨_, rfl⟩, ⟨_, rfl⟩⟩)
      rfl
  exact h.trans rfl

/-- C8: when no document of the batch yields a parseable record, the failure is
reported only after the whole batch was attempted: the service answers HTTP 400
"No data could be extracted from the provided files." with every document's
extraction and LLM calls in the event log, and the interactive page shows the
per-document parse-error panels but no table and no download button. -/
theorem c8_empty_result (files : List Doc)
    (h : ∀ d ∈ files, okDoc d ∧ okDocApp d)
    (hnone : ∀ d ∈ files, docRec d = none)
    (hlen : files.length ≤ 10) :
    MainPy.extract_data_from_pdfs files
      = (.error ⟨400, "No data could be extracted from the provided files."⟩,
          files.flatMap docTrace) ∧
      AppPy.main files = .done (files.filterMap docPanelOpt) none false := by
  have hfm : files.filterMap docRec = [] := List.filterMap_eq_nil_iff.mpr hnone
  constructor
  · unfold MainPy.extract_data_from_pdfs
    rw [if_neg (by omega), runBatch_ok files [] [] (fun d hd => (h d hd).1)]
    simp [hfm]
  · unfold AppPy.main
    rw [if_neg (by omega)]
    have h2 := app_go_append files [] [] [] h
    rw [List.append_nil] at h2
    rw [h2]
    simp [hfm, AppPy.app_go]

/-- C8 (witness): a one-document batch whose only response is unparseable. -/
theorem c8_empty_result_witness :
    MainPy.extract_data_from_pdfs [docPlainBad]
      = (.error ⟨400, "No data could be extracted from the provided files."⟩,
          [Event.extractCalled "plain.pdf", Event.llmCalled "plain.pdf",
           Event.parseFailed "plain.pdf" "not json"]) ∧
      AppPy.main [docPlainBad] = .done [("plain.pdf", "not json")] none false := by
  have h := c8_empty_result [docPlainBad]
      (by
        intro d hd
        simp only [List.mem_singleton] at hd
        subst hd
        refine ⟨⟨rfl, ⟨_, rfl⟩, ⟨_, rfl⟩⟩, ⟨[some "text"], rfl, ?_⟩⟩
        intro p hp
        simp only [List.mem_singleton] at hp
        subst hp
        exact fun hc => Option.noConfusion hc)
      (by
        intro d hd
        simp only [List.mem_singleton] at hd
        subst hd
        rfl)
      (by decide)
  exact ⟨h.1.trans rfl, h.2.trans rfl⟩
